import Mathlib

set_option maxRecDepth 2048

/-!
Verification of the PyMVPA HDF5 object codec (`mvpa/base/hdf5.py`).

The module provides `obj2hdf` (encode a Python object into an HDF5 group),
`hdf2obj` (decode an HDF5 node back into an object), and the wrappers
`h5save`/`h5load`.  This file gives a shallow embedding of those four
functions together with the value universe and store model they operate on,
and proves / refutes the specification claims about them.

Modelling conventions:
* Python values are the inductive `PyVal`; numeric scalars and array elements
  are carried as opaque bit patterns (`Nat`), so "bit-identical" round-trips
  are plain equality.  No numeric semantics is attached to them.
* The hierarchical store (h5py) is a tree `HNode` of datasets and groups;
  groups carry an association list of attributes and of named children.
  Child insertion order is the list order.
* Python-2 behaviour of `__reduce__` is captured by `reduceOf`: the builtin
  containers `list`, `tuple`, `dict` and `None` raise `TypeError` (they are
  non-heap types whose `copy_reg._reduce_ex` hits the `base is cls` check),
  ordinary new-style instances yield the `copy_reg._reconstructor` default
  reduction, and objects with a custom `__reduce__` yield their factory.
* Decoding resolves classes and factories by name.  What the surrounding
  runtime knows about those names (only `issubclass(cls, dict)` matters for
  control flow) is a parameter `PyEnv`; the import / resolve / allocate /
  call actions performed during decoding are recorded as an `Effect` trace.
-/

/-- A NumPy element dtype descriptor such as "int32" or "float64".  The
generic `object` dtype is *not* a `NumDtype`: arrays of dtype `object` are
represented by the separate `PyVal.objarray` constructor, mirroring the
`obj.dtype == N.object` test in the source. -/
abbrev NumDtype := String

/-- A Python value for which `N.isscalar` returns `True`: Python ints and
bools, NumPy numeric scalars (dtype plus raw bit pattern), and strings. -/
inductive PyScalar where
  | int (n : Int)
  | bool (b : Bool)
  | num (dtype : NumDtype) (bits : Nat)
  | str (s : String)
deriving DecidableEq

/-- A Python dict key.  `obj2hdf` passes dict keys as HDF5 child names; the
store addresses children by string, so `keyStr` gives the stored name. -/
inductive PyKey where
  | str (s : String)
  | int (n : Int)
deriving DecidableEq

/-- Modelled from the spec: the Hierarchical Store Adapter (h5py, out of
scope of `src/`) keys children by *name*; `create_group(parent, name)` /
`create_dataset(name, ...)` store a child under the string form of the key
that `obj2hdf` passes through from a dict. -/
def keyStr : PyKey → String
  | .str s => s
  | .int n => n.repr

/-- The universe of Python objects the codec can be handed.

`scalar` and `array` are the directly-storable leaves (fast path of
`obj2hdf`).  `objarray` is an `ndarray` of dtype `object`, modelled as its
element sequence (the source immediately converts it with `list(obj)`).
`pylist`/`pytuple`/`pydict`/`pynone` are the builtin containers.
`instObj cls mod state items` is a new-style instance whose `__reduce__` is
the default `copy_reg._reconstructor` reduction: `state` is its attribute
dict `__dict__`; `items = some m` marks a `dict`-subclass instance with
mapping content `m` (so `isinstance(obj, dict)` holds), `none` an ordinary
instance.  `customObj recon mod args` is an object whose `__reduce__`
returns a custom factory named `recon` from module `mod` with positional
arguments `args`.  `builtinOther cls` is a value of a non-heap builtin type
(e.g. a function or a type object): `__reduce__` raises `TypeError`, its
class is named `cls` and declared in `__builtin__`. -/
inductive PyVal where
  | scalar (s : PyScalar)
  | array (dtype : NumDtype) (shape : List Nat) (data : List Nat)
  | objarray (elems : List PyVal)
  | pylist (xs : List PyVal)
  | pytuple (xs : List PyVal)
  | pydict (kvs : List (PyKey × PyVal))
  | pynone
  | instObj (cls mod : String) (state : List (String × PyVal))
      (items : Option (List (PyKey × PyVal)))
  | customObj (recon mod : String) (args : List PyVal)
  | builtinOther (cls : String)

/-- An HDF5 attribute value written by the codec: `class`/`module`/`recon`
are strings, `is_objarray` is the boolean `True`. -/
inductive AttrVal where
  | str (s : String)
  | bool (b : Bool)
deriving DecidableEq

/-- An HDF5 dataset.  `scalarD` is a zero-dimensional dataset created from a
scalar value (reading it back with `hdf[()]` returns that scalar);
`arrayD` is a dataset created from a numeric `ndarray`, keeping dtype,
shape and raw element bits. -/
inductive Dset where
  | scalarD (s : PyScalar)
  | arrayD (dtype : NumDtype) (shape : List Nat) (data : List Nat)
deriving DecidableEq

/-- A node of the hierarchical store: an `h5py.Dataset` or an `h5py.Group`
with metadata attributes and named children (in insertion order). -/
inductive HNode where
  | dset (d : Dset)
  | group (attrs : List (String × AttrVal)) (children : List (String × HNode))

/-- Runtime actions `hdf2obj` performs while reconstructing: importing a
module (`__import__(mod, ...)`), resolving a name in a module's dict,
allocating a bare instance of a resolved class (`object.__new__` /
`dict.__new__`), and calling a resolved factory with decoded arguments. -/
inductive Effect where
  | importMod (mod : String)
  | resolve (mod name : String)
  | allocate (mod cls : String)
  | call (mod name : String) (args : List PyVal)

/-- The Python exceptions the codec raises, by kind, so that fatal
malformed-store errors (`RuntimeError`), unsupported-feature errors
(`NotImplementedError`) and the recoverable not-found error of `h5load`
(`ValueError`) stay distinguishable. -/
inductive HError where
  | runtimeError (msg : String)
  | notImplementedError (msg : String)
  | valueError (msg : String)
  | keyError (key : String)
  | typeError (msg : String)
deriving DecidableEq

/-- What the decoder's surrounding runtime knows about named classes:
whether the class resolved from (module, class name) is a subclass of
`dict` (the only class property `hdf2obj` branches on).  Import and name
resolution themselves are modelled as succeeding — their failures are
environmental, not part of the codec logic. -/
structure PyEnv where
  isDictSub : (mod cls : String) → Bool

/-- A fixed environment in which no custom class subclasses `dict`; used to
instantiate universally quantified theorems on concrete inputs. -/
def env0 : PyEnv := ⟨fun _ _ => false⟩

/-! ### Store primitives -/

/-- Lookup of a named child (`hdf[name]`, `name in hdf`): first match in
insertion order; names written by the codec are unique. -/
def findChild : List (String × HNode) → String → Option HNode
  | [], _ => none
  | c :: rest, n => if c.1 = n then some c.2 else findChild rest n

/-- Lookup of an attribute (`hdf.attrs[key]`). -/
def getAttr : List (String × AttrVal) → String → Option AttrVal
  | [], _ => none
  | a :: rest, k => if a.1 = k then some a.2 else getAttr rest k

/-- Membership test `key in hdf.attrs`. -/
def hasAttr (attrs : List (String × AttrVal)) (k : String) : Bool :=
  (getAttr attrs k).isSome

/-- Appending an attribute (`grp.attrs.create(key, value)`); only ever
called for keys not yet present. -/
def addAttr (g : HNode) (k : String) (v : AttrVal) : HNode :=
  match g with
  | .group attrs children => .group (attrs ++ [(k, v)]) children
  | .dset d => .dset d

/-- Appending a named child (`create_group` / `create_dataset`); only ever
called on groups, for names not yet present. -/
def addChild (g : HNode) (n : String) (c : HNode) : HNode :=
  match g with
  | .group attrs children => .group attrs (children ++ [(n, c)])
  | .dset d => .dset d

/-- An empty group; also the root group of a freshly opened (truncated)
HDF5 file. -/
def emptyGroup : HNode := .group [] []

theorem findChild_sizeOf {cs : List (String × HNode)} {n : String} {c : HNode}
    (h : findChild cs n = some c) : sizeOf c < sizeOf cs := by
  induction cs with
  | nil => simp [findChild] at h
  | cons hd tl ih =>
    simp only [findChild] at h
    split at h
    · cases h
      cases hd
      simp only [Prod.mk.sizeOf_spec, List.cons.sizeOf_spec]
      omega
    · have := ih h
      simp only [List.cons.sizeOf_spec]
      omega

/-! ### Decimal index names

`obj2hdf` stores sequence elements under `str(i)` and
`_hdf_listitems_to_obj` reads them back via `hdf[str(i)]`.  The model uses
`Nat.repr` for `str(i)`; its injectivity is established by parsing the
decimal digits back. -/

/-- Folding step that re-reads a decimal digit character. -/
def decStep (a : Nat) (c : Char) : Nat := 10 * a + (c.toNat - 48)

theorem digitChar_decStep : ∀ k, k < 10 → (Nat.digitChar k).toNat - 48 = k := by
  decide

theorem toDigitsCore_foldl (fuel : Nat) :
    ∀ (n : Nat) (ds : List Char), n < fuel →
      (Nat.toDigitsCore 10 fuel n ds).foldl decStep 0 = ds.foldl decStep n := by
  induction fuel with
  | zero => intro n ds h; omega
  | succ fuel ih =>
    intro n ds h
    simp only [Nat.toDigitsCore]
    split
    · rename_i hdiv
      have hmod : n % 10 = n := by omega
      simp only [List.foldl_cons, decStep, digitChar_decStep (n % 10) (by omega)]
      rw [hmod, Nat.mul_zero, Nat.zero_add]
    · rename_i hdiv
      have hlt : n / 10 < fuel := by
        have h1 : n / 10 < n := Nat.div_lt_self (by omega) (by omega)
        omega
      rw [ih (n / 10) (Nat.digitChar (n % 10) :: ds) hlt]
      simp only [List.foldl_cons, decStep, digitChar_decStep (n % 10) (by omega)]
      rw [Nat.div_add_mod]

theorem foldl_toDigits (n : Nat) :
    (Nat.toDigits 10 n).foldl decStep 0 = n := by
  rw [Nat.toDigits, toDigitsCore_foldl (n + 1) n [] (Nat.lt_succ_self n)]
  rfl

theorem natRepr_injective : Function.Injective Nat.repr := by
  intro m n h
  have hd : Nat.toDigits 10 m = Nat.toDigits 10 n := by
    have h2 : (Nat.toDigits 10 m).asString = (Nat.toDigits 10 n).asString := h
    exact congrArg String.data h2
  have := foldl_toDigits m
  rw [hd, foldl_toDigits n] at this
  exact this.symm

/-! ### Encoder (`obj2hdf`) -/

/-- The outcome of `obj.__reduce__()` under Python-2 semantics.
`typeErr` : the call raised `TypeError` (builtin containers, `None`, and
non-heap builtin types such as functions — `copy_reg._reduce_ex` hits its
`base is cls` check).  `res fname fmod args state` : a reduction tuple whose
factory is named `fname`, declared in module `fmod`, with positional
arguments `args` and, when present, a third state component. -/
inductive ReduceRes where
  | typeErr
  | res (fname fmod : String) (args : List PyVal)
      (state : Option (List (String × PyVal)))

/-- `obj.__reduce__()` as `obj2hdf` observes it.  For a default-reduction
instance the factory is `copy_reg._reconstructor`; its argument triple
`(cls, object, None)` is never read by `obj2hdf` (only `pieces[0].__name__`
and `pieces[2]` are), so it is modelled as `[]`.  The state component is
present exactly when the instance dict is non-empty (`_reduce_ex` returns a
2-tuple for an empty dict).  A custom reduction carries its factory name,
module and arguments; `obj2hdf` ignores any state component of a custom
reduction, so none is modelled. -/
def reduceOf : PyVal → ReduceRes
  | .pylist _ => .typeErr
  | .pytuple _ => .typeErr
  | .pydict _ => .typeErr
  | .pynone => .typeErr
  | .builtinOther _ => .typeErr
  | .instObj _ _ state _ =>
      .res "_reconstructor" "copy_reg" [] (if state.isEmpty then none else some state)
  | .customObj r m args => .res r m args none
  | .scalar _ => .typeErr
  | .array _ _ _ => .typeErr
  | .objarray _ => .typeErr

/-- `obj.__class__.__name__`.  The `scalar`/`array`/`customObj` lines are
unreachable from `obj2hdf` (fast path, resp. custom-replay branch). -/
def clsName : PyVal → String
  | .pylist _ => "list"
  | .objarray _ => "list"
  | .pytuple _ => "tuple"
  | .pydict _ => "dict"
  | .pynone => "NoneType"
  | .builtinOther c => c
  | .instObj c _ _ _ => c
  | .customObj _ _ _ => ""
  | .scalar _ => ""
  | .array _ _ _ => ""

/-- `obj.__class__.__module__`: the declaring module of the instance class,
`__builtin__` for the builtin container types. -/
def clsModule : PyVal → String
  | .instObj _ m _ _ => m
  | _ => "__builtin__"

/-- The direct-leaf fast-path test of `obj2hdf`:
`N.isscalar(obj) or (isinstance(obj, N.ndarray) and not obj.dtype == N.object)`. -/
def isFast : PyVal → Bool
  | .scalar _ => true
  | .array _ _ _ => true
  | _ => false

/-- The dataset `create_dataset` builds from a directly-storable value.
Only applied under `isFast`; the catch-all line is unreachable. -/
def toDset : PyVal → Dset
  | .scalar s => .scalarD s
  | .array dt sh data => .arrayD dt sh data
  | _ => .scalarD (.int 0)

theorem sizeOf_list_pos {α : Type} [SizeOf α] (l : List α) : 0 < sizeOf l := by
  cases l <;> simp_arith

theorem sizeOf_string_pos (s : String) : 0 < sizeOf s := by
  cases s
  simp_arith

theorem reduceOf_args_size {v : PyVal} {f fm : String} {args : List PyVal}
    {stO : Option (List (String × PyVal))}
    (h : reduceOf v = .res f fm args stO) : sizeOf args < sizeOf v := by
  cases v with
  | instObj cls mod state items =>
    simp only [reduceOf, ReduceRes.res.injEq] at h
    obtain ⟨-, -, ha, -⟩ := h
    subst ha
    have hs := sizeOf_list_pos state
    simp only [List.nil.sizeOf_spec, PyVal.instObj.sizeOf_spec]
    omega
  | customObj r m args2 =>
    simp only [reduceOf, ReduceRes.res.injEq] at h
    obtain ⟨-, -, ha, -⟩ := h
    subst ha
    simp only [PyVal.customObj.sizeOf_spec]
    omega
  | scalar s => simp [reduceOf] at h
  | array dt sh d => simp [reduceOf] at h
  | objarray e => simp [reduceOf] at h
  | pylist xs => simp [reduceOf] at h
  | pytuple xs => simp [reduceOf] at h
  | pydict kvs => simp [reduceOf] at h
  | pynone => simp [reduceOf] at h
  | builtinOther c => simp [reduceOf] at h

theorem reduceOf_state_size {v : PyVal} {f fm : String} {args : List PyVal}
    {st : List (String × PyVal)}
    (h : reduceOf v = .res f fm args (some st)) : sizeOf st < sizeOf v := by
  cases v with
  | instObj cls mod state items =>
    simp only [reduceOf, ReduceRes.res.injEq] at h
    obtain ⟨-, -, -, hst⟩ := h
    by_cases he : state.isEmpty
    · simp [he] at hst
    · simp only [he, Bool.false_eq_true, if_false, Option.some.injEq] at hst
      subst hst
      simp only [PyVal.instObj.sizeOf_spec]
      omega
  | customObj r m args2 => simp [reduceOf] at h
  | scalar s => simp [reduceOf] at h
  | array dt sh d => simp [reduceOf] at h
  | objarray e => simp [reduceOf] at h
  | pylist xs => simp [reduceOf] at h
  | pytuple xs => simp [reduceOf] at h
  | pydict kvs => simp [reduceOf] at h
  | pynone => simp [reduceOf] at h
  | builtinOther c => simp [reduceOf] at h

mutual

/-- Body of `obj2hdf(hdf, obj, name, **kwargs)` as a pure store
transformer: returns the parent node with the encoding of `obj` written
into it.  The fast path stores scalars and non-object-dtype arrays as a
dataset named `name` (with `name = None`, h5py creates an anonymous
dataset that is not linked into the parent, so the parent is unchanged);
otherwise a group is created under `name` (or the parent itself is used
when `name` is `None`) and filled.  The `**kwargs` bag is forwarded
verbatim to `create_dataset` and never interpreted, so it is not
modelled. -/
def objEnc (parent : HNode) (obj : PyVal) (name : Option String) : HNode :=
  if isFast obj then
    match name with
    | some n => addChild parent n (.dset (toDset obj))
    | none => parent
  else
    match name with
    | some n => addChild parent n (fillGroup emptyGroup obj)
    | none => fillGroup parent obj
termination_by 4 * sizeOf obj + 4
decreasing_by
  all_goals simp_wf
  all_goals omega

/-- Steps of `obj2hdf` after group setup: the special case for arrays of
dtype `object` (`obj = list(obj)` plus the `is_objarray` attribute),
then the reduction-based dispatch. -/
def fillGroup (grp : HNode) (obj : PyVal) : HNode :=
  match ho : obj with
  | .objarray elems =>
      fillBody (addAttr grp "is_objarray" (.bool true)) (.pylist elems)
  | _ => fillBody grp obj
termination_by 4 * sizeOf obj + 3
decreasing_by
  all_goals simp_wf
  all_goals try omega
  all_goals subst ho
  all_goals simp_arith

/-- Reduction-based dispatch of `obj2hdf`: the generic branch is taken when
`__reduce__` raised `TypeError` (`pieces is None`) or the factory is the
default `_reconstructor`; otherwise the custom-replay branch records
`recon` and `module` attributes and encodes `pieces[1]` under `rcargs`. -/
def fillBody (grp : HNode) (obj : PyVal) : HNode :=
  match hr : reduceOf obj with
  | .typeErr => genericFill grp obj
  | .res fname fmod args stO =>
    if fname = "_reconstructor" then genericFill grp obj
    else
      addChild (addAttr (addAttr grp "recon" (.str fname)) "module" (.str fmod))
        "rcargs" (seqFill emptyGroup args 0)
termination_by 4 * sizeOf obj + 2
decreasing_by
  all_goals simp_wf
  all_goals try omega
  all_goals have := reduceOf_args_size hr
  all_goals omega

/-- Generic-replay branch of `obj2hdf`: record `class` and `module`
attributes; encode list/tuple elements under `items` by index, dict values
(of a builtin dict or of a `dict`-subclass instance, both matching
`isinstance(obj, dict)`) under `items` by key; then, when the reduction
produced a third component, encode it under `state` by attribute name.
The reduction of `obj` is pure, so re-inspecting it here is equivalent to
the source's single `pieces` binding. -/
def genericFill (grp : HNode) (obj : PyVal) : HNode :=
  let g1 := addAttr (addAttr grp "class" (.str (clsName obj)))
      "module" (.str (clsModule obj))
  let g2 :=
    match obj with
    | .pylist xs => addChild g1 "items" (seqFill emptyGroup xs 0)
    | .pytuple xs => addChild g1 "items" (seqFill emptyGroup xs 0)
    | .pydict kvs => addChild g1 "items" (dictFill emptyGroup kvs)
    | .instObj _ _ _ (some m) => addChild g1 "items" (dictFill emptyGroup m)
    | _ => g1
  match hr : reduceOf obj with
  | .res _ _ _ (some state) => addChild g2 "state" (strFill emptyGroup state)
  | _ => g2
termination_by 4 * sizeOf obj + 1
decreasing_by
  all_goals simp_wf
  all_goals try omega
  all_goals have := reduceOf_state_size hr
  all_goals omega

/-- The `for i, item in enumerate(obj): obj2hdf(items, item, str(i))` loop
filling a sequence-style group. -/
def seqFill (grp : HNode) (xs : List PyVal) (i : Nat) : HNode :=
  match xs with
  | [] => grp
  | x :: rest => seqFill (objEnc grp x (some (Nat.repr i))) rest (i + 1)
termination_by 4 * sizeOf xs
decreasing_by
  all_goals simp_wf
  all_goals have := sizeOf_list_pos rest
  all_goals simp_arith
  all_goals try omega

/-- The `for key in obj: obj2hdf(items, obj[key], key)` loop filling a
mapping-style group (keys stringified by the store adapter). -/
def dictFill (grp : HNode) (kvs : List (PyKey × PyVal)) : HNode :=
  match kvs with
  | [] => grp
  | kv :: rest => dictFill (objEnc grp kv.2 (some (keyStr kv.1))) rest
termination_by 4 * sizeOf kvs
decreasing_by
  all_goals simp_wf
  all_goals obtain ⟨k, v⟩ := kv
  all_goals simp_arith
  all_goals try omega

/-- The `for attr in state: obj2hdf(stategrp, state[attr], attr)` loop
filling the `state` group. -/
def strFill (grp : HNode) (st : List (String × PyVal)) : HNode :=
  match st with
  | [] => grp
  | a :: rest => strFill (objEnc grp a.2 (some a.1)) rest
termination_by 4 * sizeOf st
decreasing_by
  all_goals simp_wf
  all_goals obtain ⟨k, v⟩ := a
  all_goals simp_arith
  all_goals try omega

end

/-- `obj2hdf(hdf, obj, name, **kwargs)` itself.  The source contains no
`raise` statement: every path returns normally, so the `Except` layer
(recording that a Python call *could* raise) always carries `.ok`. -/
def obj2hdf (parent : HNode) (obj : PyVal) (name : Option String) :
    Except HError HNode :=
  .ok (objEnc parent obj name)

/-- The store node `obj2hdf` creates for `obj` when given a fresh name: a
dataset on the fast path, a filled fresh group otherwise. -/
def encNode (obj : PyVal) : HNode :=
  if isFast obj then .dset (toDset obj) else fillGroup emptyGroup obj

theorem objEnc_some (parent : HNode) (obj : PyVal) (n : String) :
    objEnc parent obj n = addChild parent n (encNode obj) := by
  rw [objEnc, encNode]
  by_cases hf : isFast obj <;> simp [hf]

/-! ### Decoder (`hdf2obj`) -/

/-- The decoding monad: the result (or raised exception) of a decode step,
together with the trace of runtime `Effect`s performed before returning or
raising. -/
def DM (α : Type) : Type := Except HError α × List Effect

/-- Sequencing of decode steps: effects accumulate; a raised exception
aborts the rest of the computation but keeps the effects already
performed. -/
def DM.bind {α β : Type} (x : DM α) (f : α → DM β) : DM β :=
  match x with
  | (.error e, tr) => (.error e, tr)
  | (.ok a, tr) => ((f a).1, tr ++ (f a).2)

instance : Monad DM where
  pure a := (.ok a, [])
  bind := DM.bind

/-- Raising a Python exception. -/
def DM.err {α : Type} (e : HError) : DM α := (.error e, [])

/-- Recording one runtime effect. -/
def DM.emit (ef : Effect) : DM Unit := (.ok (), [ef])

/-- Modelled from the spec: `asobjarray` (imported from `mvpa.base.types`,
whose source is not part of `src/`) re-wraps a plain element sequence into
an array of element type `object` ("must be re-wrapped into that array
shape on reconstruction rather than left as a plain sequence"). -/
def asobjarray (l : List PyVal) : PyVal := .objarray l

theorem children_sizeOf_lt (attrs : List (String × AttrVal))
    (cs : List (String × HNode)) : sizeOf cs < sizeOf (HNode.group attrs cs) := by
  simp_arith

theorem findChild_sizeOf_group {attrs : List (String × AttrVal)}
    {cs : List (String × HNode)} {nm : String} {c : HNode}
    (h : findChild cs nm = some c) : sizeOf c < sizeOf (HNode.group attrs cs) :=
  Nat.lt_trans (findChild_sizeOf h) (children_sizeOf_lt attrs cs)

mutual

/-- `hdf2obj(hdf)`: convert an HDF5 node back into a Python value.  `path`
is `hdf.name`, the absolute location of the node inside the store, used in
error messages.  A zero-dimensional dataset yields the contained scalar
(`hdf[()]`); other datasets yield the array unchanged.  A group requires a
`class` or `recon` attribute; `recon` selects custom replay (rejecting
factories from `__builtin__`, importing and resolving the factory,
decoding `rcargs` in index order, and calling it — the call is modelled as
the symbolic value `customObj`); a non-`__builtin__` `class` selects
generic replay (bare allocation, `state` insertion into the instance dict,
`items` only for `dict` subclasses); a `__builtin__` `class` dispatches on
the recorded name.  A `class`/`module`/`recon` attribute that is absent
where required (or holds a non-string) is modelled as the lookup exception
`keyError`. -/
def hdf2obj (env : PyEnv) (h : HNode) (path : String) : DM PyVal :=
  match h with
  | .dset (.scalarD s) => pure (.scalar s)
  | .dset (.arrayD dt shape data) =>
      if shape.length = 0 then pure (.scalar (.num dt (data.headD 0)))
      else pure (.array dt shape data)
  | .group attrs children =>
      if !(hasAttr attrs "class" || hasAttr attrs "recon") then
        DM.err (.runtimeError ("Found hdf group without class instance information (group: " ++ path ++ "). This is a conceptual bug in the parser or the hdf writer. Please report."))
      else if hasAttr attrs "recon" then
        match getAttr attrs "recon", getAttr attrs "module" with
        | some (.str recon), some (.str mod) =>
            if mod = "__builtin__" then
              DM.err (.notImplementedError ("Built-in reconstructors are not supported (yet). Got: '" ++ recon ++ "'."))
            else do
              DM.emit (.importMod mod)
              DM.emit (.resolve mod recon)
              let args ← match hfc : findChild children "rcargs" with
                | some rc => hdf_tupleitems_to_obj env rc (path ++ "/rcargs")
                | none => pure []
              DM.emit (.call mod recon args)
              pure (.customObj recon mod args)
        | _, _ => DM.err (.keyError "module")
      else
        match getAttr attrs "class", getAttr attrs "module" with
        | some (.str cls), some (.str mod) =>
          if !(mod = "__builtin__") then do
            DM.emit (.importMod mod)
            DM.emit (.resolve mod cls)
            DM.emit (.allocate mod cls)
            let st ← match hfc : findChild children "state" with
              | some sn => hdf_dictitems_to_obj env sn (path ++ "/state") []
              | none => pure []
            match hfc : findChild children "items" with
            | some itn =>
                if env.isDictSub mod cls then do
                  let its ← hdf_dictitems_to_obj env itn (path ++ "/items") []
                  pure (.instObj cls mod st
                    (some (its.map (fun p => (PyKey.str p.1, p.2)))))
                else
                  DM.err (.notImplementedError ("Unhandled conatiner typ (got: '" ++ cls ++ "')."))
            | none =>
                pure (.instObj cls mod st
                  (if env.isDictSub mod cls then some [] else none))
          else
            if cls = "NoneType" then pure .pynone
            else if cls = "tuple" then
              match hfc : findChild children "items" with
              | some itn => do
                  let l ← hdf_tupleitems_to_obj env itn (path ++ "/items")
                  pure (.pytuple l)
              | none => DM.err (.keyError "items")
            else if cls = "list" then
              match hfc : findChild children "items" with
              | some itn => do
                  let l ← hdf_listitems_to_obj env itn (path ++ "/items")
                  if hasAttr attrs "is_objarray" then pure (asobjarray l)
                  else pure (.pylist l)
              | none => DM.err (.keyError "items")
            else if cls = "dict" then
              match hfc : findChild children "items" with
              | some itn => do
                  let kvs ← hdf_dictitems_to_obj env itn (path ++ "/items") []
                  pure (.pydict (kvs.map (fun p => (PyKey.str p.1, p.2))))
              | none => DM.err (.keyError "items")
            else
              DM.err (.runtimeError ("Found hdf group with a builtin type that is not handled by the parser (group: " ++ path ++ "). This is a conceptual bug in the parser. Please report."))
        | _, _ => DM.err (.keyError "module")
termination_by (sizeOf h, 0)
decreasing_by
  all_goals simp_wf
  all_goals apply Prod.Lex.left
  all_goals have := findChild_sizeOf hfc
  all_goals omega

/-- `_hdf_listitems_to_obj(hdf)`: `[hdf2obj(hdf[str(i)]) for i in
xrange(len(hdf))]`.  On a dataset (never produced by the codec itself)
string indexing raises `TypeError`. -/
def hdf_listitems_to_obj (env : PyEnv) (node : HNode) (path : String) :
    DM (List PyVal) :=
  match node with
  | .group _ cs => listLoop env cs path 0 cs.length
  | .dset _ => DM.err (.typeError "dataset is not indexable by item name")
termination_by (sizeOf node, 2)
decreasing_by
  all_goals simp_wf
  all_goals apply Prod.Lex.left
  all_goals omega

/-- `_hdf_tupleitems_to_obj(hdf)`: the same element list, whose `tuple()`
wrapping is represented at the use sites (`pytuple`, the argument list of
a factory call). -/
def hdf_tupleitems_to_obj (env : PyEnv) (node : HNode) (path : String) :
    DM (List PyVal) :=
  hdf_listitems_to_obj env node path
termination_by (sizeOf node, 3)
decreasing_by
  all_goals simp_wf
  all_goals apply Prod.Lex.right
  all_goals omega

/-- `_hdf_dictitems_to_obj(hdf, skip)`: `dict([(item, hdf2obj(hdf[item]))
for item in hdf if not item in skip])`, iterating child names in stored
order.  On a dataset, iteration raises `TypeError`. -/
def hdf_dictitems_to_obj (env : PyEnv) (node : HNode) (path : String)
    (skip : List String) : DM (List (String × PyVal)) :=
  match node with
  | .group _ cs => dictLoop env cs (cs.map Prod.fst) skip path
  | .dset _ => DM.err (.typeError "dataset is not iterable")
termination_by (sizeOf node, 2)
decreasing_by
  all_goals simp_wf
  all_goals apply Prod.Lex.left
  all_goals omega

/-- The index-driven loop of `_hdf_listitems_to_obj`: elements are fetched
by the *name* `str(i)` for `i = 0, ..., len(hdf)-1`, in ascending index
order, regardless of how the children are stored; a missing index name
raises `KeyError`. -/
def listLoop (env : PyEnv) (cs : List (String × HNode)) (path : String)
    (i n : Nat) : DM (List PyVal) :=
  if hlt : i < n then
    match hfc : findChild cs (Nat.repr i) with
    | some c => do
        let v ← hdf2obj env c (path ++ "/" ++ Nat.repr i)
        let rest ← listLoop env cs path (i + 1) n
        pure (v :: rest)
    | none => DM.err (.keyError (Nat.repr i))
  else pure []
termination_by (sizeOf cs, n - i)
decreasing_by
  all_goals simp_wf
  all_goals first
    | (apply Prod.Lex.right; omega)
    | (apply Prod.Lex.left; exact findChild_sizeOf hfc)

/-- The name-driven loop of `_hdf_dictitems_to_obj`: each stored child
name (not in `skip`) is looked up and decoded, keyed by that name. -/
def dictLoop (env : PyEnv) (cs : List (String × HNode))
    (names skip : List String) (path : String) : DM (List (String × PyVal)) :=
  match names with
  | [] => pure []
  | nm :: rest =>
      if skip.contains nm then dictLoop env cs rest skip path
      else
        match hfc : findChild cs nm with
        | some c => do
            let v ← hdf2obj env c (path ++ "/" ++ nm)
            let r ← dictLoop env cs rest skip path
            pure ((nm, v) :: r)
        | none => DM.err (.keyError nm)
termination_by (sizeOf cs, names.length)
decreasing_by
  all_goals simp_wf
  all_goals first
    | (apply Prod.Lex.right; simp_arith)
    | (apply Prod.Lex.left; first
        | exact findChild_sizeOf hfc
        | (rename_i v9 h9; exact findChild_sizeOf h9)
        | (rename_i h9; exact findChild_sizeOf h9))

end

/-! ### Save / load wrappers -/

/-- `h5save(filename, data, name, mode, **kwargs)`: open the HDF5 file
(modelled as the fresh empty root group that truncating open produces;
failures to open at a path/mode are adapter-environmental and out of
scope), run `obj2hdf` inside `try`, and close the handle in `finally` on
every exit path.  The first component is the encode outcome (the written
root on success), the second reports whether the handle is closed when
the call finishes. -/
def h5save (filename : String) (data : PyVal) (name : Option String)
    (mode : String) : Except HError HNode × Bool :=
  (obj2hdf emptyGroup data name, true)

/-- `h5load(filename, name)`: open the file read-only (its root group has
attributes `rootAttrs` and children `rootChildren`), resolve `name` when
given — raising `ValueError` before any decoding when absent — then run
`hdf2obj` inside `try`, closing the handle in `finally` on every exit
path.  The first component is the decode outcome with its effect trace,
the second whether the handle is closed at exit. -/
def h5load (env : PyEnv) (rootAttrs : List (String × AttrVal))
    (rootChildren : List (String × HNode)) (filename : String)
    (name : Option String) : DM PyVal × Bool :=
  let result : DM PyVal :=
    match name with
    | some n =>
      match findChild rootChildren n with
      | none => DM.err (.valueError ("No object of name '" ++ n ++ "' in file '" ++ filename ++ "'."))
      | some c => hdf2obj env c ("/" ++ n)
    | none => hdf2obj env (.group rootAttrs rootChildren) "/"
  (result, true)

/-- `hdf2obj(obj2hdf(hdf, v, "obj"))`: encode `v` into a fresh store under
the name "obj" and decode the stored node back. -/
def roundtrip (env : PyEnv) (v : PyVal) : Except HError PyVal :=
  match obj2hdf emptyGroup v (some "obj") with
  | .error e => .error e
  | .ok root =>
    match root with
    | .group _ cs =>
      match findChild cs "obj" with
      | some c => (hdf2obj env c "/obj").1
      | none => .error (.keyError "obj")
    | .dset _ => .error (.keyError "obj")

/-! ### Well-formed container values -/

/-- No-duplicate test on the child names a dict's keys produce (the real
adapter rejects duplicate names, which the list-based store model would
otherwise silently shadow). -/
def nodupB : List String → Bool
  | [] => true
  | s :: rest => (!rest.contains s) && nodupB rest

mutual

/-- Values built from the builtin containers and directly-storable leaves,
for which the codec round-trips: scalars, numeric arrays of nonzero
dimensionality, object arrays, lists, tuples, `None`, and dicts whose
keys are strings without duplicates.  A zero-dimensional numeric array is
excluded (it decodes to a scalar); instances and custom-reduction objects
are out of this class. -/
def wfVal : PyVal → Bool
  | .scalar _ => true
  | .array _ shape _ => !shape.isEmpty
  | .objarray elems => wfList elems
  | .pylist xs => wfList xs
  | .pytuple xs => wfList xs
  | .pydict kvs => wfKVs kvs && nodupB (kvs.map (fun kv => keyStr kv.1))
  | .pynone => true
  | .instObj _ _ _ _ => false
  | .customObj _ _ _ => false
  | .builtinOther _ => false
termination_by v => sizeOf v
decreasing_by all_goals simp_arith

/-- All elements well-formed. -/
def wfList : List PyVal → Bool
  | [] => true
  | x :: rest => wfVal x && wfList rest
termination_by xs => sizeOf xs
decreasing_by all_goals simp_arith

/-- All keys are strings and all values well-formed. -/
def wfKVs : List (PyKey × PyVal) → Bool
  | [] => true
  | kv :: rest =>
      (match kv.1 with | .str _ => true | .int _ => false) && wfVal kv.2 && wfKVs rest
termination_by kvs => sizeOf kvs
decreasing_by
  all_goals simp_wf
  all_goals obtain ⟨k, v⟩ := kv
  all_goals simp_arith

end

theorem natRepr_zero : Nat.repr 0 = "0" := by decide
theorem natRepr_one : Nat.repr 1 = "1" := by decide
theorem natRepr_two : Nat.repr 2 = "2" := by decide

theorem DM.pure_eq {α : Type} (a : α) : (pure a : DM α) = (Except.ok a, []) := rfl

theorem DM.bind_eq {α β : Type} (x : DM α) (f : α → DM β) :
    x >>= f = DM.bind x f := rfl

theorem DM.bind_ok {α β : Type} (a : α) (tr : List Effect) (f : α → DM β) :
    DM.bind (Except.ok a, tr) f = ((f a).1, tr ++ (f a).2) := rfl

theorem DM.bind_error {α β : Type} (e : HError) (tr : List Effect)
    (f : α → DM β) : DM.bind (Except.error e, tr) f = (Except.error e, tr) := rfl

theorem DM.emit_eq (ef : Effect) : DM.emit ef = (Except.ok (), [ef]) := rfl

/-! ### Shape of encoded groups -/

/-- The children a sequence-encoding loop appends: element `j` of the
remaining list is stored under the name `str(start + j)`. -/
def seqChildren : List PyVal → Nat → List (String × HNode)
  | [], _ => []
  | x :: rest, i => (Nat.repr i, encNode x) :: seqChildren rest (i + 1)

/-- The children a mapping-encoding loop appends: each value is stored
under the (stringified) key. -/
def dictChildren (kvs : List (PyKey × PyVal)) : List (String × HNode) :=
  kvs.map (fun kv => (keyStr kv.1, encNode kv.2))

theorem seqFill_group (xs : List PyVal) :
    ∀ (attrs : List (String × AttrVal)) (cs : List (String × HNode)) (i : Nat),
      seqFill (.group attrs cs) xs i = .group attrs (cs ++ seqChildren xs i) := by
  induction xs with
  | nil => intro attrs cs i; simp [seqFill, seqChildren]
  | cons x rest ih =>
      intro attrs cs i
      rw [seqFill, objEnc_some, addChild, ih]
      simp [seqChildren]

theorem dictFill_group (kvs : List (PyKey × PyVal)) :
    ∀ (attrs : List (String × AttrVal)) (cs : List (String × HNode)),
      dictFill (.group attrs cs) kvs = .group attrs (cs ++ dictChildren kvs) := by
  induction kvs with
  | nil => intro attrs cs; simp [dictFill, dictChildren]
  | cons kv rest ih =>
      intro attrs cs
      rw [dictFill, objEnc_some, addChild, ih]
      simp [dictChildren]

theorem encNode_scalar (s : PyScalar) :
    encNode (.scalar s) = .dset (.scalarD s) := rfl

theorem encNode_array (dt : NumDtype) (shape data : List Nat) :
    encNode (.array dt shape data) = .dset (.arrayD dt shape data) := rfl

theorem encNode_pynone :
    encNode .pynone
      = .group [("class", .str "NoneType"), ("module", .str "__builtin__")] [] := by
  simp [encNode, isFast, fillGroup, fillBody, reduceOf, genericFill, clsName,
    clsModule, addAttr, addChild, emptyGroup]

theorem encNode_pylist (xs : List PyVal) :
    encNode (.pylist xs)
      = .group [("class", .str "list"), ("module", .str "__builtin__")]
          [("items", .group [] (seqChildren xs 0))] := by
  simp [encNode, isFast, fillGroup, fillBody, reduceOf, genericFill, clsName,
    clsModule, addAttr, addChild, emptyGroup, seqFill_group]

theorem encNode_pytuple (xs : List PyVal) :
    encNode (.pytuple xs)
      = .group [("class", .str "tuple"), ("module", .str "__builtin__")]
          [("items", .group [] (seqChildren xs 0))] := by
  simp [encNode, isFast, fillGroup, fillBody, reduceOf, genericFill, clsName,
    clsModule, addAttr, addChild, emptyGroup, seqFill_group]

theorem encNode_pydict (kvs : List (PyKey × PyVal)) :
    encNode (.pydict kvs)
      = .group [("class", .str "dict"), ("module", .str "__builtin__")]
          [("items", .group [] (dictChildren kvs))] := by
  simp [encNode, isFast, fillGroup, fillBody, reduceOf, genericFill, clsName,
    clsModule, addAttr, addChild, emptyGroup, dictFill_group]

theorem encNode_objarray (elems : List PyVal) :
    encNode (.objarray elems)
      = .group [("is_objarray", .bool true), ("class", .str "list"),
          ("module", .str "__builtin__")]
          [("items", .group [] (seqChildren elems 0))] := by
  simp [encNode, isFast, fillGroup, fillBody, reduceOf, genericFill, clsName,
    clsModule, addAttr, addChild, emptyGroup, seqFill_group]

theorem encNode_builtinOther (c : String) :
    encNode (.builtinOther c)
      = .group [("class", .str c), ("module", .str "__builtin__")] [] := by
  simp [encNode, isFast, fillGroup, fillBody, reduceOf, genericFill, clsName,
    clsModule, addAttr, addChild, emptyGroup]

theorem encNode_customObj (r m : String) (args : List PyVal)
    (hr : ¬r = "_reconstructor") :
    encNode (.customObj r m args)
      = .group [("recon", .str r), ("module", .str m)]
          [("rcargs", .group [] (seqChildren args 0))] := by
  simp [encNode, isFast, fillGroup, fillBody, reduceOf, hr, addAttr, addChild,
    emptyGroup, seqFill_group]

theorem seqChildren_length (xs : List PyVal) :
    ∀ i, (seqChildren xs i).length = xs.length := by
  induction xs with
  | nil => intro i; simp [seqChildren]
  | cons x rest ih => intro i; simp [seqChildren, ih]

theorem findChild_seqChildren (xs : List PyVal) :
    ∀ (start j : Nat), start ≤ j →
      findChild (seqChildren xs start) (Nat.repr j)
        = (xs[j - start]?).map encNode := by
  induction xs with
  | nil => intro start j h; simp [seqChildren, findChild]
  | cons x rest ih =>
      intro start j h
      simp only [seqChildren, findChild]
      by_cases he : start = j
      · subst he
        simp
      · have hne : ¬(Nat.repr start = Nat.repr j) := fun hc => he (natRepr_injective hc)
        rw [if_neg hne, ih (start + 1) j (by omega)]
        have hsub : j - start = (j - (start + 1)) + 1 := by omega
        rw [hsub, List.getElem?_cons_succ]

theorem listLoop_seq (env : PyEnv) (xs : List PyVal) (path : String)
    (IH : ∀ x ∈ xs, ∀ p, hdf2obj env (encNode x) p = (Except.ok x, [])) :
    ∀ i, listLoop env (seqChildren xs 0) path i xs.length
      = (Except.ok (xs.drop i), []) := by
  suffices H : ∀ (k i : Nat), xs.length - i = k →
      listLoop env (seqChildren xs 0) path i xs.length
        = (Except.ok (xs.drop i), []) by
    exact fun i => H (xs.length - i) i rfl
  intro k
  induction k with
  | zero =>
      intro i hk
      have hge : ¬ i < xs.length := by omega
      have hdrop : xs.drop i = [] := List.drop_eq_nil_of_le (by omega)
      rw [listLoop, dif_neg hge, hdrop, DM.pure_eq]
  | succ k ihk =>
      intro i hk
      have hlt : i < xs.length := by omega
      have hfind : findChild (seqChildren xs 0) (Nat.repr i)
          = some (encNode (xs.get ⟨i, hlt⟩)) := by
        rw [findChild_seqChildren xs 0 i (Nat.zero_le i)]
        simp [List.getElem?_eq_getElem hlt]
      rw [listLoop, dif_pos hlt]
      split
      · rename_i c hc
        rw [hfind] at hc
        have hc2 : c = encNode (xs.get ⟨i, hlt⟩) := by
          exact (Option.some.inj hc).symm
        subst hc2
        rw [DM.bind_eq, IH (xs.get ⟨i, hlt⟩) (xs.get_mem i hlt) _, DM.bind_ok]
        rw [DM.bind_eq, ihk (i + 1) (by omega), DM.bind_ok, DM.pure_eq]
        simp only [List.nil_append, List.append_nil]
        rw [List.get_eq_getElem, List.getElem_cons_drop]
      · rename_i hc
        rw [hfind] at hc
        cases hc

theorem findChild_dictChildren :
    ∀ (kvs : List (PyKey × PyVal)),
      nodupB (kvs.map (fun kv => keyStr kv.1)) = true →
      ∀ kv ∈ kvs, findChild (dictChildren kvs) (keyStr kv.1) = some (encNode kv.2) := by
  intro kvs
  induction kvs with
  | nil => intro _ kv hm; simp at hm
  | cons hd rest ih =>
      intro hnd kv hm
      simp only [List.map_cons, nodupB, Bool.and_eq_true, Bool.not_eq_eq_eq_not,
        Bool.not_true] at hnd
      obtain ⟨hcont, hndrest⟩ := hnd
      simp only [dictChildren, List.map_cons, findChild]
      rcases List.mem_cons.mp hm with hm | hm
      · subst hm
        simp
      · have hne : ¬(keyStr hd.1 = keyStr kv.1) := by
          intro hc
          have hmemname : keyStr kv.1 ∈ rest.map (fun kv => keyStr kv.1) :=
            List.mem_map.mpr ⟨kv, hm, rfl⟩
          rw [hc] at hcont
          simp only [List.elem_eq_mem, decide_eq_false_iff_not] at hcont
          exact hcont hmemname
        rw [if_neg hne]
        exact ih hndrest kv hm

theorem dictLoop_enc (env : PyEnv) (path : String)
    (full : List (String × HNode)) :
    ∀ (kvs : List (PyKey × PyVal)),
      (∀ kv ∈ kvs, findChild full (keyStr kv.1) = some (encNode kv.2)) →
      (∀ kv ∈ kvs, ∀ p, hdf2obj env (encNode kv.2) p = (Except.ok kv.2, [])) →
      dictLoop env full (kvs.map (fun kv => keyStr kv.1)) [] path
        = (Except.ok (kvs.map (fun kv => (keyStr kv.1, kv.2))), []) := by
  intro kvs
  induction kvs with
  | nil => intro _ _; rw [List.map_nil, dictLoop, List.map_nil, DM.pure_eq]
  | cons kv rest ih =>
      intro hfind hdec
      simp only [List.map_cons]
      rw [dictLoop]
      have hskip : ([] : List String).contains (keyStr kv.1) = false := rfl
      rw [hskip]
      simp only [Bool.false_eq_true, if_false]
      split
      · rename_i c hc
        rw [hfind kv (List.mem_cons_self kv rest)] at hc
        have hc2 : c = encNode kv.2 := (Option.some.inj hc).symm
        subst hc2
        rw [DM.bind_eq, hdec kv (List.mem_cons_self kv rest) _, DM.bind_ok]
        rw [DM.bind_eq,
          ih (fun p hp => hfind p (List.mem_cons_of_mem kv hp))
             (fun p hp => hdec p (List.mem_cons_of_mem kv hp)),
          DM.bind_ok, DM.pure_eq]
        simp
      · rename_i hc
        rw [hfind kv (List.mem_cons_self kv rest)] at hc
        cases hc

theorem wfList_mem : ∀ {xs : List PyVal}, wfList xs = true →
    ∀ x ∈ xs, wfVal x = true := by
  intro xs
  induction xs with
  | nil => intro _ x hx; simp at hx
  | cons y rest ih =>
      intro h x hx
      rw [wfList, Bool.and_eq_true] at h
      rcases List.mem_cons.mp hx with hx | hx
      · subst hx; exact h.1
      · exact ih h.2 x hx

theorem wfKVs_mem : ∀ {kvs : List (PyKey × PyVal)}, wfKVs kvs = true →
    ∀ kv ∈ kvs, (∃ s, kv.1 = PyKey.str s) ∧ wfVal kv.2 = true := by
  intro kvs
  induction kvs with
  | nil => intro _ kv hm; simp at hm
  | cons hd rest ih =>
      intro h kv hm
      rw [wfKVs, Bool.and_eq_true, Bool.and_eq_true] at h
      rcases List.mem_cons.mp hm with hm | hm
      · subst hm
        refine ⟨?_, h.1.2⟩
        rcases hkey : kv.1 with s | n
        · exact ⟨s, rfl⟩
        · rw [hkey] at h
          simp at h
      · exact ih h.2 kv hm

theorem map_fst_dictChildren (kvs : List (PyKey × PyVal)) :
    (dictChildren kvs).map Prod.fst = kvs.map (fun kv => keyStr kv.1) := by
  simp [dictChildren]

theorem map_keyStr_id : ∀ {kvs : List (PyKey × PyVal)}, wfKVs kvs = true →
    kvs.map (fun kv => (PyKey.str (keyStr kv.1), kv.2)) = kvs := by
  intro kvs
  induction kvs with
  | nil => intro _; simp
  | cons hd rest ih =>
      intro h
      have hh := wfKVs_mem h hd (List.mem_cons_self hd rest)
      obtain ⟨⟨s, hs⟩, -⟩ := hh
      have ht : wfKVs rest = true := by
        rw [wfKVs, Bool.and_eq_true, Bool.and_eq_true] at h
        exact h.2
      simp only [List.map_cons, ih ht]
      rw [hs]
      simp only [keyStr]
      rw [← hs]

theorem map_pair_keyStr {kvs : List (PyKey × PyVal)} (h : wfKVs kvs = true) :
    (kvs.map (fun kv => (keyStr kv.1, kv.2))).map (fun p => (PyKey.str p.1, p.2))
      = kvs := by
  rw [List.map_map]
  exact map_keyStr_id h

theorem decode_encNode (env : PyEnv) (v : PyVal) (path : String)
    (hw : wfVal v = true) : hdf2obj env (encNode v) path = (Except.ok v, []) := by
  match v with
  | .scalar s =>
      rw [encNode_scalar]
      simp only [hdf2obj]
      rfl
  | .array dt shape data =>
      have h0 : ¬(shape.length = 0) := by
        cases shape
        · simp [wfVal] at hw
        · simp
      rw [encNode_array]
      simp only [hdf2obj, if_neg h0]
      rfl
  | .pynone =>
      rw [encNode_pynone]
      simp [hdf2obj, hasAttr, getAttr, DM.pure_eq]
  | .pylist xs =>
      have hwl : wfList xs = true := by simpa [wfVal] using hw
      have IH : ∀ x ∈ xs, ∀ p, hdf2obj env (encNode x) p = (Except.ok x, []) := by
        intro x hx p
        exact decode_encNode env x p (wfList_mem hwl x hx)
      rw [encNode_pylist]
      simp [hdf2obj, hasAttr, getAttr, findChild, hdf_listitems_to_obj,
        seqChildren_length, DM.bind_eq, DM.bind_ok, DM.pure_eq,
        listLoop_seq env xs (path ++ "/items") IH]
  | .pytuple xs =>
      have hwl : wfList xs = true := by simpa [wfVal] using hw
      have IH : ∀ x ∈ xs, ∀ p, hdf2obj env (encNode x) p = (Except.ok x, []) := by
        intro x hx p
        exact decode_encNode env x p (wfList_mem hwl x hx)
      rw [encNode_pytuple]
      simp [hdf2obj, hasAttr, getAttr, findChild, hdf_tupleitems_to_obj,
        hdf_listitems_to_obj, seqChildren_length, DM.bind_eq, DM.bind_ok,
        DM.pure_eq, listLoop_seq env xs (path ++ "/items") IH]
  | .objarray xs =>
      have hwl : wfList xs = true := by simpa [wfVal] using hw
      have IH : ∀ x ∈ xs, ∀ p, hdf2obj env (encNode x) p = (Except.ok x, []) := by
        intro x hx p
        exact decode_encNode env x p (wfList_mem hwl x hx)
      rw [encNode_objarray]
      simp [hdf2obj, hasAttr, getAttr, findChild, hdf_listitems_to_obj,
        seqChildren_length, DM.bind_eq, DM.bind_ok, DM.pure_eq, asobjarray,
        listLoop_seq env xs (path ++ "/items") IH]
  | .pydict kvs =>
      have hw2 : wfKVs kvs = true ∧ nodupB (kvs.map fun kv => keyStr kv.1) = true := by
        simpa [wfVal] using hw
      have IH : ∀ kv ∈ kvs, ∀ p, hdf2obj env (encNode kv.2) p = (Except.ok kv.2, []) := by
        intro kv hkv p
        exact decode_encNode env kv.2 p (wfKVs_mem hw2.1 kv hkv).2
      have hloop := dictLoop_enc env (path ++ "/items") (dictChildren kvs) kvs
        (findChild_dictChildren kvs hw2.2) IH
      rw [encNode_pydict]
      simp [hdf2obj, hasAttr, getAttr, findChild, hdf_dictitems_to_obj,
        map_fst_dictChildren, DM.bind_eq, DM.bind_ok, DM.pure_eq, hloop,
        -List.map_map, map_pair_keyStr hw2.1]
  | .instObj cls mod st items => simp [wfVal] at hw
  | .customObj r m args => simp [wfVal] at hw
  | .builtinOther c => simp [wfVal] at hw
termination_by sizeOf v
decreasing_by
  all_goals simp_wf
  all_goals first
    | (have h1 := List.sizeOf_lt_of_mem hx; simp_arith at h1 ⊢; omega)
    | (have h1 := List.sizeOf_lt_of_mem hkv; obtain ⟨k1, v1⟩ := kv;
       simp_arith at h1 ⊢; omega)

theorem roundtrip_eq (env : PyEnv) (v : PyVal) :
    roundtrip env v = (hdf2obj env (encNode v) "/obj").1 := by
  rw [roundtrip, obj2hdf, objEnc_some]
  simp [addChild, emptyGroup, findChild]

theorem roundtrip_wf (env : PyEnv) (v : PyVal) (hw : wfVal v = true) :
    roundtrip env v = Except.ok v := by
  rw [roundtrip_eq, decode_encNode env v "/obj" hw]

theorem map_pair_keyStr2 (kvs : List (PyKey × PyVal)) :
    (kvs.map (fun kv => (keyStr kv.1, kv.2))).map (fun p => (PyKey.str p.1, p.2))
      = kvs.map (fun kv => (PyKey.str (keyStr kv.1), kv.2)) := by
  rw [List.map_map]
  rfl

theorem decode_encNode_dict (env : PyEnv) (path : String)
    (kvs : List (PyKey × PyVal))
    (hval : ∀ kv ∈ kvs, wfVal kv.2 = true)
    (hnd : nodupB (kvs.map fun kv => keyStr kv.1) = true) :
    hdf2obj env (encNode (.pydict kvs)) path
      = (Except.ok (.pydict (kvs.map fun kv => (PyKey.str (keyStr kv.1), kv.2))), []) := by
  have IH : ∀ kv ∈ kvs, ∀ p, hdf2obj env (encNode kv.2) p = (Except.ok kv.2, []) :=
    fun kv hkv p => decode_encNode env kv.2 p (hval kv hkv)
  have hloop := dictLoop_enc env (path ++ "/items") (dictChildren kvs) kvs
    (findChild_dictChildren kvs hnd) IH
  rw [encNode_pydict]
  simp [hdf2obj, hasAttr, getAttr, findChild, hdf_dictitems_to_obj,
    map_fst_dictChildren, DM.bind_eq, DM.bind_ok, DM.pure_eq, hloop,
    -List.map_map, map_pair_keyStr2]

/-! ### Decode safety: every runtime action names only store metadata -/

/-- The strings an effect mentions: the module it imports and the class or
factory name it resolves / allocates / calls. -/
def Effect.names : Effect → List String
  | .importMod m => [m]
  | .resolve m x => [m, x]
  | .allocate m c => [m, c]
  | .call m f _ => [m, f]

/-- The string values of the reconstruction-descriptor attributes
(`class`, `module`, `recon`) in one attribute list. -/
def attrMetaStrings (attrs : List (String × AttrVal)) : List String :=
  attrs.filterMap (fun p =>
    if p.1 = "class" ∨ p.1 = "module" ∨ p.1 = "recon" then
      match p.2 with
      | .str s => some s
      | .bool _ => none
    else none)

mutual

/-- All reconstruction-descriptor strings occurring anywhere in a store
tree — the only names the store's metadata declares. -/
def metaStrings : HNode → List String
  | .dset _ => []
  | .group attrs children => attrMetaStrings attrs ++ metaStringsL children
termination_by h => sizeOf h
decreasing_by all_goals simp_arith

/-- Union over a child list. -/
def metaStringsL : List (String × HNode) → List String
  | [] => []
  | c :: rest => metaStrings c.2 ++ metaStringsL rest
termination_by cs => sizeOf cs
decreasing_by
  all_goals simp_wf
  all_goals obtain ⟨n1, c1⟩ := c
  all_goals simp_arith

end

/-- Every effect in the trace of `dm` draws all the module / class /
factory names it mentions from `pool`. -/
def EffIn (pool : List String) {α : Type} (dm : DM α) : Prop :=
  ∀ e ∈ dm.2, ∀ s ∈ Effect.names e, s ∈ pool

theorem EffIn.mono {pool pool2 : List String} {α : Type} {dm : DM α}
    (hsub : ∀ s ∈ pool, s ∈ pool2) (h : EffIn pool dm) : EffIn pool2 dm :=
  fun e he s hs => hsub s (h e he s hs)

theorem EffIn.of_nil {pool : List String} {α : Type} {dm : DM α}
    (h : dm.2 = []) : EffIn pool dm := by
  intro e he s hs
  rw [h] at he
  cases he

theorem EffIn.emit {pool : List String} {ef : Effect}
    (h : ∀ s ∈ Effect.names ef, s ∈ pool) : EffIn pool (DM.emit ef) := by
  intro e he s hs
  have he2 : e = ef := by
    rcases List.mem_singleton.mp he with h2
    exact h2
  rw [he2] at hs
  exact h s hs

theorem EffIn.bind {pool : List String} {α β : Type} {x : DM α} {f : α → DM β}
    (hx : EffIn pool x) (hf : ∀ a, EffIn pool (f a)) : EffIn pool (x >>= f) := by
  intro e he s hs
  rw [DM.bind_eq] at he
  obtain ⟨res, tr⟩ := x
  cases res with
  | error e2 =>
      rw [DM.bind_error] at he
      exact hx e he s hs
  | ok a =>
      rw [DM.bind_ok] at he
      rcases List.mem_append.mp he with h1 | h1
      · exact hx e h1 s hs
      · exact hf a e h1 s hs

theorem getAttr_metaString {attrs : List (String × AttrVal)} {k s : String}
    (hk : k = "class" ∨ k = "module" ∨ k = "recon")
    (h : getAttr attrs k = some (.str s)) : s ∈ attrMetaStrings attrs := by
  induction attrs with
  | nil => simp [getAttr] at h
  | cons a rest ih =>
      simp only [getAttr] at h
      by_cases he : a.1 = k
      · rw [if_pos he] at h
        have ha : a.2 = .str s := Option.some.inj h
        simp only [attrMetaStrings, List.filterMap_cons]
        have hcond : (a.1 = "class" ∨ a.1 = "module" ∨ a.1 = "recon") := by
          rw [he]; exact hk
        rw [if_pos hcond, ha]
        exact List.mem_cons_self s _
      · rw [if_neg he] at h
        have htail := ih h
        simp only [attrMetaStrings, List.filterMap_cons]
        split
        · exact htail
        · exact List.mem_cons_of_mem _ htail

theorem metaStrings_findChild {cs : List (String × HNode)} {nm : String}
    {c : HNode} (h : findChild cs nm = some c) :
    ∀ s ∈ metaStrings c, s ∈ metaStringsL cs := by
  induction cs with
  | nil => simp [findChild] at h
  | cons hd rest ih =>
      simp only [findChild] at h
      intro s hs
      simp only [metaStringsL, List.mem_append]
      by_cases he : hd.1 = nm
      · rw [if_pos he] at h
        left
        rw [Option.some.inj h]
        exact hs
      · rw [if_neg he] at h
        right
        exact ih h s hs

theorem memMeta_attr {attrs : List (String × AttrVal)}
    {children : List (String × HNode)} {k s : String}
    (hk : k = "class" ∨ k = "module" ∨ k = "recon")
    (h : getAttr attrs k = some (.str s)) :
    s ∈ metaStrings (.group attrs children) := by
  simp only [metaStrings]
  exact List.mem_append.mpr (Or.inl (getAttr_metaString hk h))

theorem effSub_child {attrs : List (String × AttrVal)}
    {children : List (String × HNode)} {nm : String} {c : HNode} {α : Type}
    {dm : DM α} (hfc : findChild children nm = some c)
    (h : EffIn (metaStrings c) dm) :
    EffIn (metaStrings (.group attrs children)) dm := by
  refine EffIn.mono ?_ h
  intro s hs
  simp only [metaStrings]
  exact List.mem_append.mpr (Or.inr (metaStrings_findChild hfc s hs))

mutual

theorem hdf2obj_effects (env : PyEnv) (h : HNode) (path : String) :
    EffIn (metaStrings h) (hdf2obj env h path) := by
  match h with
  | .dset (.scalarD s) =>
      apply EffIn.of_nil
      simp only [hdf2obj]
      rfl
  | .dset (.arrayD dt shape data) =>
      apply EffIn.of_nil
      simp only [hdf2obj]
      split
      · rfl
      · rfl
  | .group attrs children =>
      simp only [hdf2obj]
      split
      · exact EffIn.of_nil rfl
      · split
        · -- recon branch
          split
          · rename_i recon mod heq1 heq2
            split
            · exact EffIn.of_nil rfl
            · apply EffIn.bind
              · apply EffIn.emit
                intro s hs
                have hsm : s = mod := by simpa [Effect.names] using hs
                rw [hsm]
                exact memMeta_attr (Or.inr (Or.inl rfl)) heq2
              · intro u1
                apply EffIn.bind
                · apply EffIn.emit
                  intro s hs
                  rcases (by simpa [Effect.names] using hs : s = mod ∨ s = recon) with h2 | h2
                  · rw [h2]; exact memMeta_attr (Or.inr (Or.inl rfl)) heq2
                  · rw [h2]; exact memMeta_attr (Or.inr (Or.inr rfl)) heq1
                · intro u2
                  have hcall : ∀ (args : List PyVal),
                      EffIn (metaStrings (HNode.group attrs children))
                        (DM.emit (Effect.call mod recon args) >>= fun _ =>
                          pure (PyVal.customObj recon mod args)) := by
                    intro args
                    apply EffIn.bind
                    · apply EffIn.emit
                      intro s hs
                      rcases (by simpa [Effect.names] using hs : s = mod ∨ s = recon) with h2 | h2
                      · rw [h2]; exact memMeta_attr (Or.inr (Or.inl rfl)) heq2
                      · rw [h2]; exact memMeta_attr (Or.inr (Or.inr rfl)) heq1
                    · intro u3
                      exact EffIn.of_nil rfl
                  split
                  · rename_i rc hfc
                    apply EffIn.bind
                    · exact effSub_child hfc
                        (tupleitems_effects env rc (path ++ "/rcargs"))
                    · intro args
                      exact hcall args
                  · apply EffIn.bind
                    · exact EffIn.of_nil rfl
                    · intro args
                      exact hcall args
          · exact EffIn.of_nil rfl
        · -- class branch
          split
          · rename_i cls mod heq1 heq2
            split
            · -- custom (non-builtin) class
              apply EffIn.bind
              · apply EffIn.emit
                intro s hs
                have hsm : s = mod := by simpa [Effect.names] using hs
                rw [hsm]
                exact memMeta_attr (Or.inr (Or.inl rfl)) heq2
              · intro u1
                apply EffIn.bind
                · apply EffIn.emit
                  intro s hs
                  rcases (by simpa [Effect.names] using hs : s = mod ∨ s = cls) with h2 | h2
                  · rw [h2]; exact memMeta_attr (Or.inr (Or.inl rfl)) heq2
                  · rw [h2]; exact memMeta_attr (Or.inl rfl) heq1
                · intro u2
                  apply EffIn.bind
                  · apply EffIn.emit
                    intro s hs
                    rcases (by simpa [Effect.names] using hs : s = mod ∨ s = cls) with h2 | h2
                    · rw [h2]; exact memMeta_attr (Or.inr (Or.inl rfl)) heq2
                    · rw [h2]; exact memMeta_attr (Or.inl rfl) heq1
                  · intro u3
                    split
                    · rename_i sn hfc
                      apply EffIn.bind
                      · exact effSub_child hfc
                          (dictitems_effects env sn (path ++ "/state") [])
                      · intro st
                        split
                        · rename_i itn hfc
                          split
                          · apply EffIn.bind
                            · exact effSub_child hfc
                                (dictitems_effects env itn (path ++ "/items") [])
                            · intro its
                              exact EffIn.of_nil rfl
                          · exact EffIn.of_nil rfl
                        · exact EffIn.of_nil rfl
                    · apply EffIn.bind
                      · exact EffIn.of_nil rfl
                      · intro st
                        split
                        · rename_i itn hfc
                          split
                          · apply EffIn.bind
                            · exact effSub_child hfc
                                (dictitems_effects env itn (path ++ "/items") [])
                            · intro its
                              exact EffIn.of_nil rfl
                          · exact EffIn.of_nil rfl
                        · exact EffIn.of_nil rfl
            · -- builtin class dispatch
              split
              · exact EffIn.of_nil rfl
              · split
                · -- tuple
                  split
                  · rename_i itn hfc
                    apply EffIn.bind
                    · exact effSub_child hfc
                        (tupleitems_effects env itn (path ++ "/items"))
                    · intro l
                      exact EffIn.of_nil rfl
                  · exact EffIn.of_nil rfl
                · split
                  · -- list
                    split
                    · rename_i itn hfc
                      apply EffIn.bind
                      · exact effSub_child hfc
                          (listitems_effects env itn (path ++ "/items"))
                      · intro l
                        split
                        · exact EffIn.of_nil rfl
                        · exact EffIn.of_nil rfl
                    · exact EffIn.of_nil rfl
                  · split
                    · -- dict
                      split
                      · rename_i itn hfc
                        apply EffIn.bind
                        · exact effSub_child hfc
                            (dictitems_effects env itn (path ++ "/items") [])
                        · intro kvs
                          exact EffIn.of_nil rfl
                      · exact EffIn.of_nil rfl
                    · exact EffIn.of_nil rfl
          · exact EffIn.of_nil rfl
termination_by (sizeOf h, 0)
decreasing_by
  all_goals simp_wf
  all_goals apply Prod.Lex.left
  all_goals first
    | (have h10 := findChild_sizeOf hfc; omega)
    | (rename_i v9 h9; have h10 := findChild_sizeOf h9; omega)
    | (rename_i h9; have h10 := findChild_sizeOf h9; omega)
    | (rename_i h8; rename_i v9 h9; have h10 := findChild_sizeOf h9; omega)

theorem listitems_effects (env : PyEnv) (node : HNode) (path : String) :
    EffIn (metaStrings node) (hdf_listitems_to_obj env node path) := by
  match node with
  | .group a cs =>
      simp only [hdf_listitems_to_obj]
      refine EffIn.mono ?_ (listLoop_effects env cs path 0 cs.length)
      intro s hs
      simp only [metaStrings]
      exact List.mem_append.mpr (Or.inr hs)
  | .dset d =>
      simp only [hdf_listitems_to_obj]
      exact EffIn.of_nil rfl
termination_by (sizeOf node, 2)
decreasing_by
  all_goals simp_wf
  all_goals apply Prod.Lex.left
  all_goals omega

theorem tupleitems_effects (env : PyEnv) (node : HNode) (path : String) :
    EffIn (metaStrings node) (hdf_tupleitems_to_obj env node path) := by
  simp only [hdf_tupleitems_to_obj]
  exact listitems_effects env node path
termination_by (sizeOf node, 3)
decreasing_by
  all_goals simp_wf
  all_goals apply Prod.Lex.right
  all_goals omega

theorem dictitems_effects (env : PyEnv) (node : HNode) (path : String)
    (skip : List String) :
    EffIn (metaStrings node) (hdf_dictitems_to_obj env node path skip) := by
  match node with
  | .group a cs =>
      simp only [hdf_dictitems_to_obj]
      refine EffIn.mono ?_ (dictLoop_effects env cs (cs.map Prod.fst) skip path)
      intro s hs
      simp only [metaStrings]
      exact List.mem_append.mpr (Or.inr hs)
  | .dset d =>
      simp only [hdf_dictitems_to_obj]
      exact EffIn.of_nil rfl
termination_by (sizeOf node, 2)
decreasing_by
  all_goals simp_wf
  all_goals apply Prod.Lex.left
  all_goals omega

theorem listLoop_effects (env : PyEnv) (cs : List (String × HNode))
    (path : String) (i n : Nat) :
    EffIn (metaStringsL cs) (listLoop env cs path i n) := by
  rw [listLoop]
  split
  · split
    · rename_i hlt c hfc
      apply EffIn.bind
      · exact EffIn.mono (metaStrings_findChild hfc)
          (hdf2obj_effects env c (path ++ "/" ++ Nat.repr i))
      · intro v
        apply EffIn.bind
        · exact listLoop_effects env cs path (i + 1) n
        · intro rest
          exact EffIn.of_nil rfl
    · exact EffIn.of_nil rfl
  · exact EffIn.of_nil rfl
termination_by (sizeOf cs, n - i)
decreasing_by
  all_goals simp_wf
  all_goals first
    | (apply Prod.Lex.right; omega)
    | (apply Prod.Lex.left; first
        | exact findChild_sizeOf hfc
        | (rename_i v9 h9; exact findChild_sizeOf h9)
        | (rename_i h9; exact findChild_sizeOf h9))

theorem dictLoop_effects (env : PyEnv) (cs : List (String × HNode))
    (names skip : List String) (path : String) :
    EffIn (metaStringsL cs) (dictLoop env cs names skip path) := by
  match names with
  | [] =>
      rw [dictLoop]
      exact EffIn.of_nil rfl
  | nm :: rest =>
      rw [dictLoop]
      split
      · exact dictLoop_effects env cs rest skip path
      · split
        · rename_i c hfc
          apply EffIn.bind
          · exact EffIn.mono (metaStrings_findChild hfc)
              (hdf2obj_effects env c (path ++ "/" ++ nm))
          · intro v
            apply EffIn.bind
            · exact dictLoop_effects env cs rest skip path
            · intro r
              exact EffIn.of_nil rfl
        · exact EffIn.of_nil rfl
termination_by (sizeOf cs, names.length)
decreasing_by
  all_goals simp_wf
  all_goals first
    | (apply Prod.Lex.right; simp_arith)
    | (apply Prod.Lex.left; first
        | exact findChild_sizeOf hfc
        | (rename_i v9 h9; exact findChild_sizeOf h9)
        | (rename_i h9; exact findChild_sizeOf h9))

end

/-! ### Claims -/

/-- C1 (as stated) is false at the zero-dimensional array: encoding the
0-d int64 array holding bits 7 and decoding it yields the int64 *scalar*
with bits 7 (`hdf2obj` returns `hdf[()]` whenever `len(hdf.shape)` is 0),
not an array of the same shape. -/
theorem C1_counterexample :
    roundtrip env0 (.array "int64" [] [7]) = Except.ok (.scalar (.num "int64" 7))
    ∧ roundtrip env0 (.array "int64" [] [7]) ≠ Except.ok (.array "int64" [] [7]) := by
  constructor
  · rw [roundtrip_eq, encNode_array]
    simp [hdf2obj, DM.pure_eq]
  · rw [roundtrip_eq, encNode_array]
    simp [hdf2obj, DM.pure_eq]

/-- C1 (amended): for every supported numeric scalar x,
`hdf2obj(obj2hdf(x))` returns a scalar equal to x; for every numeric
array of nonzero dimensionality whose element type is not the generic
object type, `hdf2obj(obj2hdf(a))` returns an array of the same shape
and element type with bit-identical contents; a zero-dimensional numeric
array instead decodes to the equivalent numeric scalar holding the same
bits. -/
theorem C1_theorem (env : PyEnv) :
    (∀ s : PyScalar, roundtrip env (.scalar s) = Except.ok (.scalar s))
    ∧ (∀ (dt : NumDtype) (shape data : List Nat), shape ≠ [] →
        roundtrip env (.array dt shape data) = Except.ok (.array dt shape data))
    ∧ (∀ (dt : NumDtype) (b : Nat),
        roundtrip env (.array dt [] [b]) = Except.ok (.scalar (.num dt b))) := by
  refine ⟨?_, ?_, ?_⟩
  · intro s
    exact roundtrip_wf env (.scalar s) (by simp [wfVal])
  · intro dt shape data hne
    apply roundtrip_wf
    cases shape
    · exact absurd rfl hne
    · simp [wfVal]
  · intro dt b
    rw [roundtrip_eq, encNode_array]
    simp [hdf2obj, DM.pure_eq]

/-- C1 witness: a 1-dimensional int32 array round-trips unchanged. -/
theorem C1_witness :
    roundtrip env0 (.array "int32" [2] [5, 6])
      = Except.ok (.array "int32" [2] [5, 6]) :=
  (C1_theorem env0).2.1 "int32" [2] [5, 6] (by decide)

/-- C2: for every acyclic value built from lists, tuples, dicts (with
distinct string keys) and supported leaf values, `hdf2obj(obj2hdf(v))`
equals v — the builtin container type of every sub-value is preserved and
sequence order is preserved, `listLoop` decoding the children named
`str(0), str(1), ...` in ascending index order. -/
theorem C2_theorem (env : PyEnv) (v : PyVal) (hw : wfVal v = true) :
    roundtrip env v = Except.ok v :=
  roundtrip_wf env v hw

/-- C2 witness: a 3-level nesting of list-of-dicts-of-tuples (including an
empty list and an empty dict) round-trips unchanged. -/
theorem C2_witness :
    roundtrip env0
        (.pylist [ .pydict [(.str "a", .pytuple [.scalar (.int 1), .scalar (.str "x")]),
                            (.str "b", .pytuple [.scalar (.num "float64" 4607182418800017408)])],
                   .pydict [], .pylist [], .pynone ])
      = Except.ok
        (.pylist [ .pydict [(.str "a", .pytuple [.scalar (.int 1), .scalar (.str "x")]),
                            (.str "b", .pytuple [.scalar (.num "float64" 4607182418800017408)])],
                   .pydict [], .pylist [], .pynone ]) :=
  C2_theorem env0 _ (by simp [wfVal, wfList, wfKVs, nodupB, keyStr])

/-- C3 (as stated) is false: for a value of an unsupported non-heap builtin
type (here a function object — not a scalar, not an array, `__reduce__`
raises `TypeError`, and it is none of list/tuple/dict/None), `obj2hdf`
does *not* raise — it returns normally, writing a generic-replay group
with `class='function'`, `module='__builtin__'`. -/
theorem C3_counterexample :
    obj2hdf emptyGroup (.builtinOther "function") (some "obj")
      = Except.ok (.group []
          [("obj", .group [("class", .str "function"),
              ("module", .str "__builtin__")] [])]) := by
  simp only [obj2hdf]
  rw [objEnc_some, encNode_builtinOther]
  rfl

/-- C3 (amended): for every object that is neither a numeric scalar, nor a
numeric array, nor decomposable via the standard reduction, nor one of the
recognized builtin containers, `obj2hdf` returns normally, recording the
type's name under `class` with module `__builtin__`; the fatal
internal-consistency error ("builtin type that is not handled by the
parser") is raised only when `hdf2obj` decodes the resulting group. -/
theorem C3_theorem (env : PyEnv) (c : String)
    (h1 : c ≠ "NoneType") (h2 : c ≠ "tuple") (h3 : c ≠ "list") (h4 : c ≠ "dict") :
    obj2hdf emptyGroup (.builtinOther c) (some "obj")
        = Except.ok (.group [] [("obj", encNode (.builtinOther c))])
    ∧ roundtrip env (.builtinOther c)
        = Except.error (.runtimeError
            ("Found hdf group with a builtin type that is not handled by the parser (group: "
              ++ "/obj" ++ "). This is a conceptual bug in the parser. Please report.")) := by
  constructor
  · simp only [obj2hdf]
    rw [objEnc_some]
    rfl
  · rw [roundtrip_eq, encNode_builtinOther]
    simp [hdf2obj, hasAttr, getAttr, h1, h2, h3, h4, DM.err]

/-- C3 witness: instantiation of the amended claim at the function type. -/
theorem C3_witness :
    obj2hdf emptyGroup (.builtinOther "function") (some "obj")
        = Except.ok (.group [] [("obj", encNode (.builtinOther "function"))])
    ∧ roundtrip env0 (.builtinOther "function")
        = Except.error (.runtimeError
            ("Found hdf group with a builtin type that is not handled by the parser (group: "
              ++ "/obj" ++ "). This is a conceptual bug in the parser. Please report.")) :=
  C3_theorem env0 "function" (by decide) (by decide) (by decide) (by decide)

/-- C4 (as stated) is false: for an object whose reduction yields the
builtin factory `set` (declared in `__builtin__`), `obj2hdf` does not
signal "not yet supported" — it silently writes a custom-replay node with
`recon='set'`, `module='__builtin__'` and returns normally. -/
theorem C4_counterexample :
    obj2hdf emptyGroup (.customObj "set" "__builtin__" []) (some "obj")
      = Except.ok (.group []
          [("obj", .group [("recon", .str "set"), ("module", .str "__builtin__")]
              [("rcargs", .group [] [])])]) := by
  simp only [obj2hdf]
  rw [objEnc_some, encNode_customObj "set" "__builtin__" [] (by decide)]
  rfl

/-- C4 (amended): for every object whose reduction yields a non-default
factory callable declared in the runtime's built-in namespace, `obj2hdf`
silently writes a custom-replay node with `module='__builtin__'` and
returns normally; the fatal "Built-in reconstructors are not supported
(yet)" error is signalled by `hdf2obj` when that node is decoded. -/
theorem C4_theorem (env : PyEnv) (r : String) (args : List PyVal)
    (hr : r ≠ "_reconstructor") :
    obj2hdf emptyGroup (.customObj r "__builtin__" args) (some "obj")
        = Except.ok (.group [] [("obj", encNode (.customObj r "__builtin__" args))])
    ∧ roundtrip env (.customObj r "__builtin__" args)
        = Except.error (.notImplementedError
            ("Built-in reconstructors are not supported (yet). Got: '" ++ r ++ "'.")) := by
  constructor
  · simp only [obj2hdf]
    rw [objEnc_some]
    rfl
  · rw [roundtrip_eq, encNode_customObj r "__builtin__" args hr]
    simp [hdf2obj, hasAttr, getAttr, DM.err]

/-- C4 witness: instantiation of the amended claim at a `set` reduction
with one list argument. -/
theorem C4_witness :
    obj2hdf emptyGroup (.customObj "set" "__builtin__" [.pylist [.scalar (.int 1)]]) (some "obj")
        = Except.ok (.group []
            [("obj", encNode (.customObj "set" "__builtin__" [.pylist [.scalar (.int 1)]]))])
    ∧ roundtrip env0 (.customObj "set" "__builtin__" [.pylist [.scalar (.int 1)]])
        = Except.error (.notImplementedError
            ("Built-in reconstructors are not supported (yet). Got: '" ++ "set" ++ "'.")) :=
  C4_theorem env0 "set" [.pylist [.scalar (.int 1)]] (by decide)

/-- C5: for every store group with neither a `class` nor a `recon`
attribute, `hdf2obj` raises the fatal malformed-store `RuntimeError`, and
the error message identifies the offending node's location (`hdf.name`,
here `path`) in the tree. -/
theorem C5_theorem (env : PyEnv) (attrs : List (String × AttrVal))
    (children : List (String × HNode)) (path : String)
    (h1 : hasAttr attrs "class" = false) (h2 : hasAttr attrs "recon" = false) :
    hdf2obj env (.group attrs children) path
      = (Except.error (.runtimeError
          ("Found hdf group without class instance information (group: " ++ path
            ++ "). This is a conceptual bug in the parser or the hdf writer. Please report.")), []) := by
  simp only [hdf2obj]
  simp [h1, h2, DM.err]

/-- C5 witness: a group carrying only a `module` attribute is rejected
with the malformed-store error naming its path. -/
theorem C5_witness :
    hdf2obj env0 (.group [("module", .str "m")] []) "/x"
      = (Except.error (.runtimeError
          ("Found hdf group without class instance information (group: " ++ "/x"
            ++ "). This is a conceptual bug in the parser or the hdf writer. Please report.")), []) :=
  C5_theorem env0 [("module", .str "m")] [] "/x" (by decide) (by decide)

/-- C6: an array of element type object encodes as a list-shaped group
with the `is_objarray` attribute set, and decodes back to an object-typed
array with its elements preserved; a plain list encodes without the flag
and decodes to a plain list, never an object array. -/
theorem C6_theorem (env : PyEnv) (elems xs : List PyVal)
    (h1 : wfList elems = true) (h2 : wfList xs = true) :
    roundtrip env (.objarray elems) = Except.ok (.objarray elems)
    ∧ encNode (.objarray elems)
        = .group [("is_objarray", .bool true), ("class", .str "list"),
            ("module", .str "__builtin__")]
            [("items", .group [] (seqChildren elems 0))]
    ∧ encNode (.pylist xs)
        = .group [("class", .str "list"), ("module", .str "__builtin__")]
            [("items", .group [] (seqChildren xs 0))]
    ∧ roundtrip env (.pylist xs) = Except.ok (.pylist xs) := by
  refine ⟨?_, encNode_objarray elems, encNode_pylist xs, ?_⟩
  · apply roundtrip_wf
    simp only [wfVal]
    exact h1
  · apply roundtrip_wf
    simp only [wfVal]
    exact h2

/-- C6 witness: an object array of one numeric scalar and one string
round-trips to an object array, and the same data as a plain list
round-trips to a plain list. -/
theorem C6_witness :
    roundtrip env0 (.objarray [.scalar (.num "int64" 3), .scalar (.str "abc")])
        = Except.ok (.objarray [.scalar (.num "int64" 3), .scalar (.str "abc")])
    ∧ encNode (.objarray [.scalar (.num "int64" 3), .scalar (.str "abc")])
        = .group [("is_objarray", .bool true), ("class", .str "list"),
            ("module", .str "__builtin__")]
            [("items", .group []
              (seqChildren [.scalar (.num "int64" 3), .scalar (.str "abc")] 0))]
    ∧ encNode (.pylist [.scalar (.num "int64" 3), .scalar (.str "abc")])
        = .group [("class", .str "list"), ("module", .str "__builtin__")]
            [("items", .group []
              (seqChildren [.scalar (.num "int64" 3), .scalar (.str "abc")] 0))]
    ∧ roundtrip env0 (.pylist [.scalar (.num "int64" 3), .scalar (.str "abc")])
        = Except.ok (.pylist [.scalar (.num "int64" 3), .scalar (.str "abc")]) :=
  C6_theorem env0 _ _ (by simp [wfList, wfVal]) (by simp [wfList, wfVal])

/-- C7: loading by a name that is not stored is a recoverable `ValueError`
("No object of name ..."), distinguishable by exception kind from the
fatal malformed-store `RuntimeError`, and no decoding of any node is
attempted (the outcome and its empty effect trace are independent of the
stored value). -/
theorem C7_theorem (env : PyEnv) (v : PyVal) (a b filename : String)
    (hne : b ≠ a) :
    obj2hdf emptyGroup v (some a) = Except.ok (.group [] [(a, encNode v)])
    ∧ (h5load env [] [(a, encNode v)] filename (some b)).1
        = (Except.error (.valueError ("No object of name '" ++ b ++ "' in file '"
            ++ filename ++ "'.")), []) := by
  have hab : ¬(a = b) := fun hc => hne hc.symm
  constructor
  · simp only [obj2hdf]
    rw [objEnc_some]
    rfl
  · simp [h5load, findChild, hab, DM.err]

/-- C7 witness: a store holding one object named "foo", loaded with name
"bar", fails with the not-found `ValueError`. -/
theorem C7_witness :
    obj2hdf emptyGroup (.scalar (.int 1)) (some "foo")
        = Except.ok (.group [] [("foo", encNode (.scalar (.int 1)))])
    ∧ (h5load env0 [] [("foo", encNode (.scalar (.int 1)))] "f.h5" (some "bar")).1
        = (Except.error (.valueError ("No object of name '" ++ "bar" ++ "' in file '"
            ++ "f.h5" ++ "'.")), []) :=
  C7_theorem env0 (.scalar (.int 1)) "foo" "bar" "f.h5" (by decide)

/-- C8: on every exit path of `h5save` and `h5load` — normal return,
not-found validation failure, or any error raised while encoding or
decoding — the store handle opened by the call is closed when the call
finishes (the `finally` clause of both wrappers). -/
theorem C8_theorem :
    (∀ (filename : String) (data : PyVal) (name : Option String) (mode : String),
        (h5save filename data name mode).2 = true)
    ∧ (∀ (env : PyEnv) (rootAttrs : List (String × AttrVal))
        (rootChildren : List (String × HNode)) (filename : String)
        (name : Option String),
        (h5load env rootAttrs rootChildren filename name).2 = true) :=
  ⟨fun _ _ _ _ => rfl, fun _ _ _ _ _ => rfl⟩

/-- C9: for every store node, every runtime action `hdf2obj` performs
while decoding it — importing a module, resolving a name, allocating an
instance of a class, calling a factory — names only strings that occur as
values of `class`/`module`/`recon` metadata attributes somewhere in that
node's tree; serialized data values are never executed (there is no
evaluation action at all, and dataset contents never enter the name
pool). -/
theorem C9_theorem (env : PyEnv) (h : HNode) (path : String) :
    ∀ e ∈ (hdf2obj env h path).2, ∀ s ∈ Effect.names e, s ∈ metaStrings h :=
  hdf2obj_effects env h path

/-- C9 witness: decoding a custom-replay node with factory "f" from
module "m" performs an import of "m", and "m" is indeed declared by the
node's metadata. -/
theorem C9_witness :
    "m" ∈ metaStrings (.group [("recon", .str "f"), ("module", .str "m")] []) := by
  apply C9_theorem env0 (.group [("recon", .str "f"), ("module", .str "m")] []) "/"
    (.importMod "m") ?he "m" ?hs
  case he =>
    simp [hdf2obj, hasAttr, getAttr, findChild, DM.bind_eq, DM.bind_ok,
      DM.pure_eq, DM.emit_eq]
  case hs => simp [Effect.names]

/-- C10: every key of a mapping decoded by `hdf2obj` — from a dict's
`items` group or from a `state` group — is the string stored as the child
name; hence round-tripping a dict maps each key to the string form of
that key, and dict key round-trip holds only for string-keyed mappings. -/
theorem C10_theorem (env : PyEnv) (kvs : List (PyKey × PyVal))
    (hval : ∀ kv ∈ kvs, wfVal kv.2 = true)
    (hnd : nodupB (kvs.map fun kv => keyStr kv.1) = true) :
    roundtrip env (.pydict kvs)
      = Except.ok (.pydict (kvs.map fun kv => (PyKey.str (keyStr kv.1), kv.2))) := by
  rw [roundtrip_eq, decode_encNode_dict env "/obj" kvs hval hnd]

/-- C10 witness: a dict with the integer key 5 round-trips to a dict
keyed by the *string* "5" — not equal to the original dict. -/
theorem C10_witness :
    roundtrip env0 (.pydict [(.int 5, .scalar (.int 1))])
      = Except.ok (.pydict [(.str "5", .scalar (.int 1))]) := by
  have h := C10_theorem env0 [(.int 5, .scalar (.int 1))]
    (by
      intro kv hkv
      rw [List.mem_singleton] at hkv
      subst hkv
      simp [wfVal])
    (by simp [nodupB])
  simpa [keyStr, show (5 : Int).repr = "5" from rfl] using h
